import Mathlib

/-!
# Verification of the Streamly catalog core (`src/app.js`)

Shallow embedding of the browser catalog application:

* JavaScript values that can appear in the untrusted `catalog.json`
  manifest are modelled by `JsVal`; JS truthiness, property access
  (throwing on `null`/`undefined` bases) and `String.prototype.toLowerCase`
  (throwing on non-strings) are modelled explicitly, so that the
  normalization code in `seedFromCatalogIfEmpty` can be embedded faithfully,
  including its failure modes.
* The seeding pipeline (`seedFromCatalogIfEmpty`, lines 64-91) is embedded
  as a state-passing function over an explicit environment that supplies
  the fetch outcome, the per-put storage outcome, and the `Date.now()`
  values observed at each normalization.
* The query/view layer (`groupItems`, `pickHero`, `renderRows`, `onSearch`,
  lines 93-108 and 134-251) is embedded over a typed `VItem` record
  matching the canonical persisted Item shape of the data model
  (stored items are always outputs of normalization); `Option String`
  fields model JS `null`/absent values, with JS truthiness made explicit.
-/

namespace Streamly

/-- A JavaScript value, as can occur in a parsed `catalog.json` record. -/
inductive JsVal where
  | undefined : JsVal
  | null : JsVal
  | boolean : Bool → JsVal
  | number : Int → JsVal
  | string : String → JsVal
  | array : List JsVal → JsVal
  | object : List (String × JsVal) → JsVal

/- Structural equality on `JsVal`, used to model IndexedDB key
comparison on the `id` key path. -/
mutual
def JsVal.beq : JsVal → JsVal → Bool
  | .undefined, .undefined => true
  | .null, .null => true
  | .boolean a, .boolean b => a == b
  | .number a, .number b => a == b
  | .string a, .string b => a == b
  | .array xs, .array ys => JsVal.beqList xs ys
  | .object xs, .object ys => JsVal.beqObj xs ys
  | _, _ => false

def JsVal.beqList : List JsVal → List JsVal → Bool
  | [], [] => true
  | x :: xs, y :: ys => JsVal.beq x y && JsVal.beqList xs ys
  | _, _ => false

def JsVal.beqObj : List (String × JsVal) → List (String × JsVal) → Bool
  | [], [] => true
  | (k, x) :: xs, (k', y) :: ys => k == k' && JsVal.beq x y && JsVal.beqObj xs ys
  | _, _ => false
end

/-- JS truthiness: `undefined`, `null`, `false`, `0`, `""` are falsy;
everything else (including every array and object) is truthy. -/
def truthy : JsVal → Bool
  | .undefined => false
  | .null => false
  | .boolean b => b
  | .number n => n != 0
  | .string s => s != ""
  | .array _ => true
  | .object _ => true

/-- Property access `v.k` for a base that is not `null`/`undefined`:
an absent property reads as `undefined`, and property reads on
primitives (which box without holding any of the catalog field names)
also give `undefined`.  Record keys are assumed distinct, as produced
by JSON parsing. -/
def jsProp (v : JsVal) (k : String) : JsVal :=
  match v with
  | .object ps => (ps.lookup k).getD .undefined
  | _ => .undefined

example : truthy (JsVal.string "") = false := by decide
example : jsProp (JsVal.object [("id", JsVal.string "x")]) "id" = JsVal.string "x" := rfl
example : jsProp (JsVal.number 3) "id" = JsVal.undefined := rfl
example : JsVal.beq (JsVal.array [JsVal.null]) (JsVal.array [JsVal.null]) = true := rfl

/-- ASCII lower-casing of one character, as `toLowerCase` acts on the
characters relevant here. -/
def jsCharLower (c : Char) : Char := c.toLower

/-- `String.prototype.toLowerCase`, modelled characterwise (ASCII). -/
def jsToLower (s : String) : String := String.mk (s.data.map jsCharLower)

/-- Characters kept verbatim by the slug regex `[^a-z0-9]+`:
lowercase ASCII letters and digits. -/
def isSlugChar (c : Char) : Bool := (('a' ≤ c && c ≤ 'z') || ('0' ≤ c && c ≤ '9'))

/-- Core of `replace(/[^a-z0-9]+/g,'-')`: every maximal run of
characters outside `[a-z0-9]` becomes a single `'-'`.  The flag records
whether we are currently inside such a run (a dash has already been
emitted for it). -/
def slugAux : Bool → List Char → List Char
  | _, [] => []
  | inRun, c :: cs =>
    if isSlugChar c then c :: slugAux false cs
    else if inRun then slugAux true cs else '-' :: slugAux true cs

/-- `title.toLowerCase().replace(/[^a-z0-9]+/g,'-')` from line 73. -/
def slugify (s : String) : String := String.mk (slugAux false (jsToLower s).data)

example : slugify "My Movie!" = "my-movie-" := rfl
example : slugify "A  B" = "a-b" := rfl

/-- The decimal digit character of `d` (used for `d < 10`). -/
def digitChar (d : Nat) : Char := Char.ofNat (48 + d)

/-- Decimal digits of `n`, most significant first; the first argument is
recursion fuel, always called with fuel at least `n`. -/
def natDecimalAux : Nat → Nat → List Char
  | 0, _ => []
  | _ + 1, 0 => []
  | fuel + 1, n + 1 =>
    natDecimalAux fuel ((n + 1) / 10) ++ [digitChar ((n + 1) % 10)]

/-- Rendering a natural number in decimal, as JS template-literal
interpolation renders the `Date.now()` value. -/
def natDecimal (n : Nat) : String :=
  if n = 0 then "0" else String.mk (natDecimalAux n n)

example : natDecimal 1053 = "1053" := rfl
example : natDecimal 0 = "0" := rfl

/-- A persisted catalog record, as built at lines 74-83.  The code copies
raw JS values into the record without enforcing types, so every field is
a `JsVal`. -/
structure Item where
  id : JsVal
  title : JsVal
  year : JsVal
  description : JsVal
  poster : JsVal
  category : JsVal
  themeColor : JsVal
  sources : JsVal

/-- JS `a || b` specialised to the defaulting uses at lines 76-82. -/
def jsOr (a b : JsVal) : JsVal := if truthy a then a else b

/-- The object literal at lines 74-83, given the `id` value already
computed at line 73. -/
def mkItem (it : JsVal) (idv : JsVal) : Item where
  id := idv
  title := jsOr (jsProp it "title") (.string "Untitled")
  year := jsProp it "year"
  description := jsOr (jsProp it "description") (.string "")
  poster := jsOr (jsProp it "poster") (.string "")
  category := jsOr (jsProp it "category") (.string "Uncategorized")
  themeColor := jsOr (jsProp it "themeColor") .null
  sources :=
    if truthy (jsProp it "sources") then jsProp it "sources"
    else if truthy (jsProp it "source") then .array [jsProp it "source"]
    else .array []

/-- Whether a value is `null` or `undefined` (property access on it
throws a `TypeError`). -/
def jsNullish : JsVal → Bool
  | .null => true
  | .undefined => true
  | _ => false

/-- Normalization of one raw manifest record (lines 73-83), with `now`
the value `Date.now()` returns during this call.  `Except.error ()`
models a thrown `TypeError`: property access on a `null`/`undefined`
record throws, and so does `it.title.toLowerCase()` when the (truthy)
title is not a string. -/
def normalize (it : JsVal) (now : Nat) : Except Unit Item :=
  if jsNullish it then .error ()
  else if truthy (jsProp it "id") then .ok (mkItem it (jsProp it "id"))
  else if truthy (jsProp it "title") then
    match jsProp it "title" with
    | .string s =>
      .ok (mkItem it (.string (slugify s ++ "-" ++ natDecimal now)))
    | _ => .error ()
  else .ok (mkItem it (.string ("item-" ++ natDecimal now)))

example : normalize JsVal.null 5 = .error () := rfl
example :
    (normalize (JsVal.object [("title", JsVal.string "Alpha")]) 5).map Item.id
      = .ok (JsVal.string "alpha-5") := rfl
example :
    (normalize (JsVal.object []) 7).map Item.id = .ok (JsVal.string "item-7") := rfl
example :
    (normalize (JsVal.object [("id", JsVal.string "")]) 7).map Item.id
      = .ok (JsVal.string "item-7") := rfl
example : normalize (JsVal.object [("title", JsVal.number 3)]) 7 = .error () := rfl

/-- The mutable session state: the IndexedDB `items` object store and the
in-process `itemsCache` mirror.  `store` lists the persisted records;
`getAll` is modelled as returning exactly this list. -/
structure AppState where
  store : List Item
  itemsCache : List Item

/-- The environment a seeding run executes in: the outcome of the
`fetch('catalog.json')` (`fetchOk = false` covers network failure,
non-ok status and JSON parse failure, all of which throw before the
loop), the parsed manifest array, whether the `k`-th `idbPut` call is
rejected by the storage medium, and the `Date.now()` value observed
while normalizing the `k`-th record. -/
structure SeedEnv where
  fetchOk : Bool
  catalog : List JsVal
  putFails : Nat → Bool
  now : Nat → Nat

/-- `store.put(value)` of IndexedDB with `keyPath: 'id'`: replace the
record with an equal key if one exists, otherwise append. -/
def upsert (store : List Item) (item : Item) : List Item :=
  if store.any (fun j => JsVal.beq j.id item.id) then
    store.map (fun j => if JsVal.beq j.id item.id then item else j)
  else store ++ [item]

/-- The `for (const it of catalog)` loop of lines 71-85, processing the
records from index `k` on against the given store contents.  Returns the
store after the run, the number of `idbPut` calls that were made, and
whether the loop completed without a thrown error.  A failed `await`
(rejected put) or a `TypeError` from normalization propagates out of the
loop, abandoning the remaining records. -/
def seedLoop (env : SeedEnv) : Nat → List Item → List JsVal → List Item × Nat × Bool
  | _, store, [] => (store, 0, true)
  | k, store, r :: rs =>
    match normalize r (env.now k) with
    | .error _ => (store, 0, false)
    | .ok item =>
      if env.putFails k then (store, 1, false)
      else
        match seedLoop env (k + 1) (upsert store item) rs with
        | (s, n, ok) => (s, n + 1, ok)

/-- What a run of `seedFromCatalogIfEmpty` (lines 64-91) did, beyond its
effect on the state: whether `fetch` was called, how many `idbPut` calls
were made, and whether the final `await loadItems()` (line 86) ran. -/
structure SeedTrace where
  fetched : Bool
  putsAttempted : Nat
  reloaded : Bool

/-- `seedFromCatalogIfEmpty` (lines 64-91).  If the cache already holds
items, return at once.  A failed fetch throws into the `catch`, which
only logs.  Otherwise run the put loop; any thrown error inside the
`try` (rejected put, normalization `TypeError`) skips the
`await loadItems()` at line 86 and lands in the `catch`, leaving
`itemsCache` as it was.  Only a fully successful loop reloads the cache
from `store.getAll()`. -/
def seedFromCatalogIfEmpty (env : SeedEnv) (st : AppState) : AppState × SeedTrace :=
  if st.itemsCache.length > 0 then (st, ⟨false, 0, false⟩)
  else if env.fetchOk then
    match seedLoop env 0 st.store env.catalog with
    | (store', n, true) => (⟨store', store'⟩, ⟨true, n, true⟩)
    | (store', n, false) => (⟨store', st.itemsCache⟩, ⟨true, n, false⟩)
  else (st, ⟨true, 0, false⟩)

/-- `loadItems` (lines 59-62): rebuild the cache wholesale from
`store.getAll()`. -/
def loadItems (st : AppState) : AppState := ⟨st.store, st.store⟩

/-! ## The query/view layer

The rendering functions consume the cache, whose records are always
outputs of normalization (the store is only ever written by the seeding
loop).  They are embedded over a typed record `VItem` matching the
canonical Item shape of the data model; `none` in an `Option` field
models JS `null`/absent, and JS truthiness of such a field (`none` and
`some ""` are falsy) is `vTruthyS`. -/

/-- A cached catalog item as the view layer reads it. -/
structure VItem where
  id : String
  title : String
  year : Option Int
  description : Option String
  poster : String
  category : Option String
  themeColor : Option String
  sources : List String
deriving DecidableEq, Inhabited

/-- JS truthiness of a string-or-null field. -/
def vTruthyS : Option String → Bool
  | none => false
  | some s => s != ""

/-- JS `a || d` for a string-or-null field with a string default. -/
def jsOrS (a : Option String) (d : String) : String :=
  match a with
  | none => d
  | some s => if s = "" then d else s

/-- `item.category || 'Featured'` (line 95). -/
def catKey (item : VItem) : String := jsOrS item.category "Featured"

/-- One step of the `reduce` at lines 94-99: push `item` onto the group
keyed `cat`, creating the group (at the end, in first-encounter order)
if it does not exist yet. -/
def addToGroups (acc : List (String × List VItem)) (cat : String) (item : VItem) :
    List (String × List VItem) :=
  if acc.any (fun g => g.1 == cat) then
    acc.map (fun g => if g.1 == cat then (g.1, g.2 ++ [item]) else g)
  else acc ++ [(cat, [item])]

/-- `groupItems` (lines 93-100): partition by category, keys in
first-encounter order, items of a group in cache order. -/
def groupItems (items : List VItem) : List (String × List VItem) :=
  items.foldl (fun acc item => addToGroups acc (catKey item) item) []

/-- `CARDS_PER_ROW` (line 9). -/
def CARDS_PER_ROW : Nat := 8

/-- The inner `for (let start = 0; start < raw.length; start += CARDS_PER_ROW)`
loop of lines 149-150: split a list into consecutive chunks of 8
(`slice(start, start + 8)`), a shorter final chunk if fewer remain. -/
def chunkRows : List (Option VItem) → List (List (Option VItem))
  | [] => []
  | a :: b :: c :: d :: e :: f :: g :: h :: rest =>
    [a, b, c, d, e, f, g, h] :: chunkRows rest
  | l => [l]

/-- Lines 142-150 of `renderRows` for one category group: pad the item
array at the tail with `null` to a multiple of 8, then chunk into rows
of 8. -/
def renderRowsGroup (group : List VItem) : List (List (Option VItem)) :=
  let raw := group.map some
  let remainder := raw.length % CARDS_PER_ROW
  let padded :=
    if remainder = 0 then raw
    else raw ++ List.replicate (CARDS_PER_ROW - remainder) none
  chunkRows padded

/-- `renderRows` (lines 134-200), keeping the data content of the DOM it
builds: for each category key, in order, the rows of that group.  (Row
labels, chevrons and card markup are rendering details with no further
data.) -/
def renderRows (grouped : List (String × List VItem)) :
    List (String × List (List (Option VItem))) :=
  grouped.map (fun g => (g.1, renderRowsGroup g.2))

/-- The sentinel hero object of line 104.  The JS literal carries only
`title`, `description`, `poster` and `themeColor`; its other fields are
absent (`none` / empty). -/
def noContentHero : VItem where
  id := ""
  title := "No content"
  year := none
  description := some "Add items via catalog.json in the repository"
  poster := ""
  category := none
  themeColor := some "#e50914"
  sources := []

/-- `pickHero` (lines 102-108): on an empty cache the sentinel;
otherwise `itemsCache.find(i => i.themeColor) || itemsCache[0]`. -/
def pickHero (itemsCache : List VItem) : VItem :=
  if itemsCache.length = 0 then noContentHero
  else
    match itemsCache.find? (fun i => vTruthyS i.themeColor) with
    | some themed => themed
    | none => itemsCache.headI

/-- Characterwise whitespace class used by `trim` (the catalog texts
involve only ASCII whitespace). -/
def jsIsWhitespace (c : Char) : Bool :=
  c == ' ' || c == '\t' || c == '\n' || c == '\r'

/-- `String.prototype.trim`: strip leading and trailing whitespace. -/
def jsTrim (s : String) : String :=
  String.mk (((s.data.dropWhile jsIsWhitespace).reverse.dropWhile jsIsWhitespace).reverse)

/-- `pat` is a prefix of `s` (on character lists). -/
def listStartsWith : List Char → List Char → Bool
  | _, [] => true
  | [], _ :: _ => false
  | c :: cs, p :: ps => c == p && listStartsWith cs ps

/-- `pat` occurs contiguously inside `s` (on character lists). -/
def listIncludes : List Char → List Char → Bool
  | [], pat => listStartsWith [] pat
  | c :: cs, pat => listStartsWith (c :: cs) pat || listIncludes cs pat

/-- `s.includes(pat)`: substring containment. -/
def strIncludes (s pat : String) : Bool := listIncludes s.data pat.data

example : strIncludes "ab cd x" "b c" = true := rfl
example : strIncludes "ab" "b c" = false := rfl

/-- The concatenation `i.title + ' ' + (i.description||'') + ' ' + (i.category||'')`
from line 248. -/
def searchText (i : VItem) : String :=
  i.title ++ " " ++ jsOrS i.description "" ++ " " ++ jsOrS i.category ""

/-- What the page displays: the hero panel and the grouped rows. -/
structure View where
  hero : VItem
  groups : List (String × List (List (Option VItem)))
deriving DecidableEq

/-- `renderAll` (lines 110-116): hero from the full cache, rows from the
full cache grouped. -/
def renderAll (itemsCache : List VItem) : View :=
  ⟨pickHero itemsCache, renderRows (groupItems itemsCache)⟩

/-- `onSearch` (lines 242-251) as the view it leaves on the page.  The
query is lower-cased then trimmed; when it is empty the full view is
re-rendered.  Otherwise only the rows are re-rendered from the filtered
cache; the hero panel is not touched by `onSearch`, so the displayed
hero remains `pickHero` of the full cache as `renderAll` set it at
startup. -/
def onSearch (itemsCache : List VItem) (input : String) : View :=
  let q := jsTrim (jsToLower input)
  if q = "" then renderAll itemsCache
  else
    ⟨pickHero itemsCache,
     renderRows (groupItems (itemsCache.filter
       (fun i => strIncludes (jsToLower (searchText i)) q)))⟩

/-! ## Helper lemmas on normalization -/

/-- For a record that is neither `null` nor `undefined`, and whose title
is a string whenever the id derivation needs it, normalization succeeds
and yields `mkItem` applied to some id value. -/
lemma normalize_ok_of_wf (raw : JsVal) (t : Nat)
    (hn : raw ≠ JsVal.null) (hu : raw ≠ JsVal.undefined)
    (ht : truthy (jsProp raw "id") = false → truthy (jsProp raw "title") = true →
      ∃ s, jsProp raw "title" = JsVal.string s) :
    ∃ idv, normalize raw t = Except.ok (mkItem raw idv) := by
  have hnn : jsNullish raw = false := by
    cases raw <;> first | rfl | exact absurd rfl hn | exact absurd rfl hu
  unfold normalize
  rw [if_neg (by simp [hnn])]
  by_cases hid : truthy (jsProp raw "id") = true
  · rw [if_pos hid]
    exact ⟨jsProp raw "id", rfl⟩
  · rw [Bool.not_eq_true] at hid
    rw [if_neg (by simp [hid])]
    by_cases htt : truthy (jsProp raw "title") = true
    · obtain ⟨s, hs⟩ := ht hid htt
      rw [if_pos htt, hs]
      exact ⟨JsVal.string (slugify s ++ "-" ++ natDecimal t), rfl⟩
    · rw [Bool.not_eq_true] at htt
      rw [if_neg (by simp [htt])]
      exact ⟨JsVal.string ("item-" ++ natDecimal t), rfl⟩

/-- Each defaulting clause of the object literal at lines 74-83: an
absent raw field comes out as its stated default. -/
lemma mkItem_defaults (raw : JsVal) (idv : JsVal) :
    (jsProp raw "title" = JsVal.undefined → (mkItem raw idv).title = JsVal.string "Untitled")
    ∧ (jsProp raw "year" = JsVal.undefined → (mkItem raw idv).year = JsVal.undefined)
    ∧ (jsProp raw "description" = JsVal.undefined → (mkItem raw idv).description = JsVal.string "")
    ∧ (jsProp raw "poster" = JsVal.undefined → (mkItem raw idv).poster = JsVal.string "")
    ∧ (jsProp raw "category" = JsVal.undefined →
        (mkItem raw idv).category = JsVal.string "Uncategorized")
    ∧ (jsProp raw "themeColor" = JsVal.undefined → (mkItem raw idv).themeColor = JsVal.null)
    ∧ (jsProp raw "sources" = JsVal.undefined → jsProp raw "source" = JsVal.undefined →
        (mkItem raw idv).sources = JsVal.array []) := by
  refine ⟨fun h => ?_, fun h => ?_, fun h => ?_, fun h => ?_, fun h => ?_, fun h => ?_,
    fun h h' => ?_⟩
  · simp [mkItem, jsOr, h, truthy]
  · simp [mkItem, h]
  · simp [mkItem, jsOr, h, truthy]
  · simp [mkItem, jsOr, h, truthy]
  · simp [mkItem, jsOr, h, truthy]
  · simp [mkItem, jsOr, h, truthy]
  · simp [mkItem, h, h', truthy]

/-! ## C4 -/

/-- C4 counterexample: normalization is not total.  A `null` entry in
the manifest array makes `it.id` throw a `TypeError`, and a record whose
(truthy) title is a number makes `it.title.toLowerCase()` throw. -/
theorem C4_counterexample :
    normalize JsVal.null 0 = Except.error ()
    ∧ normalize (JsVal.object [("title", JsVal.number 3)]) 0 = Except.error () :=
  ⟨rfl, rfl⟩

/-- C4 (amended): for every raw manifest record other than
`null`/`undefined` whose title, when consulted for id derivation (id
falsy, title truthy), is a string, normalization never throws and
yields exactly one Item with each absent field replaced by its stated
default. -/
theorem C4_amended (raw : JsVal) (t : Nat)
    (hn : raw ≠ JsVal.null) (hu : raw ≠ JsVal.undefined)
    (ht : truthy (jsProp raw "id") = false → truthy (jsProp raw "title") = true →
      ∃ s, jsProp raw "title" = JsVal.string s) :
    ∃ item, normalize raw t = Except.ok item
      ∧ (jsProp raw "title" = JsVal.undefined → item.title = JsVal.string "Untitled")
      ∧ (jsProp raw "year" = JsVal.undefined → item.year = JsVal.undefined)
      ∧ (jsProp raw "description" = JsVal.undefined → item.description = JsVal.string "")
      ∧ (jsProp raw "poster" = JsVal.undefined → item.poster = JsVal.string "")
      ∧ (jsProp raw "category" = JsVal.undefined → item.category = JsVal.string "Uncategorized")
      ∧ (jsProp raw "themeColor" = JsVal.undefined → item.themeColor = JsVal.null)
      ∧ (jsProp raw "sources" = JsVal.undefined → jsProp raw "source" = JsVal.undefined →
          item.sources = JsVal.array []) := by
  obtain ⟨idv, hok⟩ := normalize_ok_of_wf raw t hn hu ht
  exact ⟨mkItem raw idv, hok, mkItem_defaults raw idv⟩

/-- C4 witness: the record `{}` (missing every field) normalizes to an
Item carrying every default. -/
theorem C4_witness :
    ∃ item, normalize (JsVal.object []) 3 = Except.ok item
      ∧ (jsProp (JsVal.object []) "title" = JsVal.undefined →
          item.title = JsVal.string "Untitled")
      ∧ (jsProp (JsVal.object []) "year" = JsVal.undefined → item.year = JsVal.undefined)
      ∧ (jsProp (JsVal.object []) "description" = JsVal.undefined →
          item.description = JsVal.string "")
      ∧ (jsProp (JsVal.object []) "poster" = JsVal.undefined → item.poster = JsVal.string "")
      ∧ (jsProp (JsVal.object []) "category" = JsVal.undefined →
          item.category = JsVal.string "Uncategorized")
      ∧ (jsProp (JsVal.object []) "themeColor" = JsVal.undefined →
          item.themeColor = JsVal.null)
      ∧ (jsProp (JsVal.object []) "sources" = JsVal.undefined →
          jsProp (JsVal.object []) "source" = JsVal.undefined →
          item.sources = JsVal.array []) :=
  C4_amended (JsVal.object []) 3 nofun nofun (fun _ h => Bool.noConfusion h)

/-! ## C9 -/

/-- C9 counterexample: a present but empty-string `raw.id` is *not*
used verbatim; `it.id || ...` falls through on the falsy `""` and
derives `item-<now>` instead. -/
theorem C9_counterexample :
    jsProp (JsVal.object [("id", JsVal.string "")]) "id" = JsVal.string ""
    ∧ (normalize (JsVal.object [("id", JsVal.string "")]) 7).map Item.id
        = Except.ok (JsVal.string "item-7")
    ∧ JsVal.string "item-7" ≠ JsVal.string "" := by
  refine ⟨rfl, rfl, fun h => ?_⟩
  injection h with h'
  exact absurd h' (by decide)

/-- C9 (amended): `raw.id` is used verbatim exactly when it is truthy;
any present falsy id value (such as the empty string) triggers
derivation instead. -/
theorem C9_amended (raw : JsVal) (t : Nat) (item : Item)
    (h : normalize raw t = Except.ok item)
    (htr : truthy (jsProp raw "id") = true) :
    item.id = jsProp raw "id" := by
  have hnn : jsNullish raw = false := by
    cases raw <;> first | rfl | exact absurd htr (by decide)
  unfold normalize at h
  rw [if_neg (by simp [hnn]), if_pos htr] at h
  injection h with h'
  rw [← h']
  rfl

/-- C9 witness: a non-empty present id is used verbatim. -/
theorem C9_witness :
    (normalize (JsVal.object [("id", JsVal.string "movie-1")]) 7).map Item.id
      = Except.ok (jsProp (JsVal.object [("id", JsVal.string "movie-1")]) "id") := by
  have h := C9_amended (JsVal.object [("id", JsVal.string "movie-1")]) 7
    (mkItem (JsVal.object [("id", JsVal.string "movie-1")])
      (JsVal.string "movie-1")) rfl rfl
  rw [show (normalize (JsVal.object [("id", JsVal.string "movie-1")]) 7).map Item.id
    = Except.ok (mkItem (JsVal.object [("id", JsVal.string "movie-1")])
      (JsVal.string "movie-1")).id from rfl, h]

/-! ## C8: derived ids and the `Date.now()` suffix -/

/-- Reading a digit string back as the number it denotes. -/
def digitsVal (l : List Char) : Nat :=
  l.foldl (fun acc c => 10 * acc + (c.toNat - 48)) 0

lemma digitsVal_append_singleton (l : List Char) (c : Char) :
    digitsVal (l ++ [c]) = 10 * digitsVal l + (c.toNat - 48) := by
  unfold digitsVal
  rw [List.foldl_append]
  rfl

lemma digitChar_toNat : ∀ d, d < 10 → (digitChar d).toNat = 48 + d := by decide

lemma digitChar_isDigit : ∀ d, d < 10 → (digitChar d).isDigit = true := by decide

lemma digitsVal_natDecimalAux : ∀ fuel n, n ≤ fuel →
    digitsVal (natDecimalAux fuel n) = n := by
  intro fuel
  induction fuel with
  | zero =>
    intro n h
    have hn : n = 0 := by omega
    subst hn
    rfl
  | succ fuel ih =>
    intro n h
    match n with
    | 0 => rfl
    | m + 1 =>
      show digitsVal (natDecimalAux fuel ((m + 1) / 10) ++ [digitChar ((m + 1) % 10)]) = m + 1
      rw [digitsVal_append_singleton, ih ((m + 1) / 10) (by omega),
        digitChar_toNat ((m + 1) % 10) (by omega)]
      omega

/-- Round trip: the decimal rendering of `n` reads back as `n`. -/
lemma digitsVal_natDecimal (n : Nat) : digitsVal (natDecimal n).data = n := by
  unfold natDecimal
  by_cases h : n = 0
  · subst h; rfl
  · simp only [h, if_false]
    exact digitsVal_natDecimalAux n n le_rfl

lemma natDecimal_inj {a b : Nat} (h : (natDecimal a).data = (natDecimal b).data) :
    a = b := by
  have ha := digitsVal_natDecimal a
  have hb := digitsVal_natDecimal b
  rw [← ha, ← hb, h]

lemma natDecimalAux_digits : ∀ fuel n, ∀ c ∈ natDecimalAux fuel n, c.isDigit = true := by
  intro fuel
  induction fuel with
  | zero => intro n c hc; simp [natDecimalAux] at hc
  | succ fuel ih =>
    intro n c hc
    match n with
    | 0 => simp [natDecimalAux] at hc
    | m + 1 =>
      rw [show natDecimalAux (fuel + 1) (m + 1)
        = natDecimalAux fuel ((m + 1) / 10) ++ [digitChar ((m + 1) % 10)] from rfl] at hc
      rcases List.mem_append.mp hc with hc | hc
      · exact ih ((m + 1) / 10) c hc
      · rw [List.mem_singleton.mp hc]
        exact digitChar_isDigit ((m + 1) % 10) (by omega)

lemma natDecimal_digits (n : Nat) : ∀ c ∈ (natDecimal n).data, c.isDigit = true := by
  unfold natDecimal
  by_cases h : n = 0
  · subst h; decide
  · simp only [h, if_false]
    exact natDecimalAux_digits n n

/-- `takeWhile` stops exactly at the separator when everything before it
satisfies the predicate and the separator does not. -/
lemma takeWhile_all_append {α : Type} (p : α → Bool) (l : List α) (c : α) (rest : List α)
    (hl : ∀ x ∈ l, p x = true) (hc : p c = false) :
    (l ++ c :: rest).takeWhile p = l := by
  induction l with
  | nil => simp [List.takeWhile_cons, hc]
  | cons a l ih =>
    have ha : p a = true := hl a (List.mem_cons_self a l)
    simp only [List.cons_append, List.takeWhile_cons, ha, if_true]
    rw [ih (fun x hx => hl x (List.mem_cons_of_mem a hx))]

/-- Cutting a `base ++ "-" ++ digits` shape at the last separator: the
digit suffixes of two equal such strings agree, whatever the bases. -/
lemma append_sep_digits_inj (b1 b2 d1 d2 : List Char)
    (h : b1 ++ '-' :: d1 = b2 ++ '-' :: d2)
    (hd1 : ∀ c ∈ d1, c.isDigit = true) (hd2 : ∀ c ∈ d2, c.isDigit = true) :
    d1 = d2 := by
  have h' : d1.reverse ++ '-' :: b1.reverse = d2.reverse ++ '-' :: b2.reverse := by
    have hr := congrArg List.reverse h
    simpa [List.reverse_append] using hr
  have e1 : (d1.reverse ++ '-' :: b1.reverse).takeWhile Char.isDigit = d1.reverse :=
    takeWhile_all_append Char.isDigit d1.reverse '-' b1.reverse
      (fun x hx => hd1 x (List.mem_reverse.mp hx)) (by decide)
  have e2 : (d2.reverse ++ '-' :: b2.reverse).takeWhile Char.isDigit = d2.reverse :=
    takeWhile_all_append Char.isDigit d2.reverse '-' b2.reverse
      (fun x hx => hd2 x (List.mem_reverse.mp hx)) (by decide)
  have : d1.reverse = d2.reverse := by rw [← e1, ← e2, h']
  simpa using congrArg List.reverse this

/-- When the raw record has no id property, the normalized id is always
of the shape `<base>-<decimal Date.now() value>`. -/
lemma normalize_derived_id (raw : JsVal) (t : Nat) (item : Item)
    (h : normalize raw t = Except.ok item)
    (hid : truthy (jsProp raw "id") = false) :
    ∃ base, item.id = JsVal.string (base ++ "-" ++ natDecimal t) := by
  by_cases hnn : jsNullish raw = true
  · rw [show normalize raw t = Except.error () from by unfold normalize; rw [if_pos hnn]] at h
    exact Except.noConfusion h
  · rw [Bool.not_eq_true] at hnn
    unfold normalize at h
    rw [if_neg (by simp [hnn]), if_neg (by simp [hid])] at h
    by_cases htt : truthy (jsProp raw "title") = true
    · rw [if_pos htt] at h
      rcases hpt : jsProp raw "title" with _ | _ | b | n | s | xs | qs <;> rw [hpt] at h <;>
        first
        | exact Except.noConfusion h
        | (injection h with h'; exact ⟨slugify s, by rw [← h']; rfl⟩)
    · rw [Bool.not_eq_true] at htt
      rw [if_neg (by simp [htt])] at h
      injection h with h'
      refine ⟨"item", ?_⟩
      rw [← h']
      rfl

/-- C8 counterexample: within one seeding run, two records lacking ids
that are normalized in the same millisecond (`Date.now()` returns the
same value) receive the *same* derived id `item-100`; seeding such a
two-record catalog upserts the second over the first, leaving one stored
item. -/
theorem C8_counterexample :
    jsProp (JsVal.object []) "id" = JsVal.undefined
    ∧ jsProp (JsVal.object [("poster", JsVal.string "p.png")]) "id" = JsVal.undefined
    ∧ (normalize (JsVal.object []) 100).map Item.id = Except.ok (JsVal.string "item-100")
    ∧ (normalize (JsVal.object [("poster", JsVal.string "p.png")]) 100).map Item.id
        = Except.ok (JsVal.string "item-100")
    ∧ (seedFromCatalogIfEmpty
        ⟨true, [JsVal.object [], JsVal.object [("poster", JsVal.string "p.png")]],
          fun _ => false, fun _ => 100⟩
        ⟨[], []⟩).1.store.length = 1 :=
  ⟨rfl, rfl, rfl, rfl, rfl⟩

/-- C8 (amended): ids derived for records lacking a raw id are pairwise
distinct *provided the `Date.now()` tokens observed by the two
normalizations differ*; with equal tokens (two records normalized within
the same millisecond) the ids can collide. -/
theorem C8_amended (r1 r2 : JsVal) (t1 t2 : Nat) (i1 i2 : Item)
    (h1 : normalize r1 t1 = Except.ok i1) (h2 : normalize r2 t2 = Except.ok i2)
    (hid1 : truthy (jsProp r1 "id") = false) (hid2 : truthy (jsProp r2 "id") = false)
    (ht : t1 ≠ t2) : i1.id ≠ i2.id := by
  obtain ⟨b1, e1⟩ := normalize_derived_id r1 t1 i1 h1 hid1
  obtain ⟨b2, e2⟩ := normalize_derived_id r2 t2 i2 h2 hid2
  rw [e1, e2]
  intro h
  injection h with h
  apply ht
  apply natDecimal_inj
  have hl := congrArg String.data h
  simp only [String.data_append] at hl
  have hl' : b1.data ++ '-' :: (natDecimal t1).data = b2.data ++ '-' :: (natDecimal t2).data := by
    simpa [List.append_assoc] using hl
  exact append_sep_digits_inj b1.data b2.data (natDecimal t1).data (natDecimal t2).data hl'
    (natDecimal_digits t1) (natDecimal_digits t2)

/-- C8 witness: with distinct `Date.now()` tokens the derived ids of two
id-less records do differ. -/
theorem C8_witness :
    ∃ i1 i2 : Item, normalize (JsVal.object []) 100 = Except.ok i1
      ∧ normalize (JsVal.object []) 101 = Except.ok i2 ∧ i1.id ≠ i2.id := by
  refine ⟨mkItem (JsVal.object []) (JsVal.string ("item-" ++ natDecimal 100)),
    mkItem (JsVal.object []) (JsVal.string ("item-" ++ natDecimal 101)), rfl, rfl, ?_⟩
  exact C8_amended (JsVal.object []) (JsVal.object []) 100 101 _ _ rfl rfl rfl rfl
    (by omega)

/-! ## Concrete seeding scenarios shared by the seeding claims -/

/-- A well-formed raw record with id `"a"`. -/
def objA : JsVal := JsVal.object [("id", JsVal.string "a")]

/-- A well-formed raw record with id `"b"`. -/
def objB : JsVal := JsVal.object [("id", JsVal.string "b")]

/-- Two-record catalog, fetch succeeds, the second put is rejected. -/
def envPutFail1 : SeedEnv := ⟨true, [objA, objB], fun k => k == 1, fun _ => 0⟩

/-- Two-record catalog, fetch succeeds, the first put is rejected. -/
def envPutFail0 : SeedEnv := ⟨true, [objA, objB], fun k => k == 0, fun _ => 0⟩

/-- One-record catalog, fetch succeeds, every put succeeds. -/
def envAllOk : SeedEnv := ⟨true, [objA], fun _ => false, fun _ => 0⟩

/-! ## C7 -/

/-- C7 counterexample: the no-op guard tests the *cache*, not the store.
After a first call in which the second of two puts was rejected, the
store is non-empty but the cache was never reloaded, so a second call
fetches the manifest again and attempts the puts again — contradicting
"no manifest fetch and no puts whenever the store is non-empty after the
first call". -/
theorem C7_counterexample :
    (seedFromCatalogIfEmpty envPutFail1 ⟨[], []⟩).1.store ≠ []
    ∧ (seedFromCatalogIfEmpty envPutFail1
        (seedFromCatalogIfEmpty envPutFail1 ⟨[], []⟩).1).2.fetched = true
    ∧ (seedFromCatalogIfEmpty envPutFail1
        (seedFromCatalogIfEmpty envPutFail1 ⟨[], []⟩).1).2.putsAttempted = 2 :=
  ⟨fun h => List.noConfusion h, rfl, rfl⟩

/-- C7 (amended): the idempotency guard is *cache* emptiness: whenever
the in-memory cache is non-empty — in particular after a first call that
fully succeeded and reloaded it from a non-empty store — a call performs
no fetch and no puts and leaves the state untouched.  (After a partial
first call that left the store non-empty but never reloaded the empty
cache, a second call does fetch and put again.) -/
theorem C7_amended (env : SeedEnv) (st : AppState) (h : st.itemsCache ≠ []) :
    seedFromCatalogIfEmpty env st = (st, ⟨false, 0, false⟩) := by
  unfold seedFromCatalogIfEmpty
  rw [if_pos (List.length_pos.mpr h)]

/-- C7 witness: on a state whose cache holds one item, seeding is a
strict no-op. -/
theorem C7_witness :
    seedFromCatalogIfEmpty envAllOk
      ⟨[mkItem objA (JsVal.string "a")], [mkItem objA (JsVal.string "a")]⟩
      = (⟨[mkItem objA (JsVal.string "a")], [mkItem objA (JsVal.string "a")]⟩,
         ⟨false, 0, false⟩) :=
  C7_amended envAllOk _ (fun h => List.noConfusion h)

/-! ## C2 -/

/-- C2 counterexample: with a two-record catalog whose second put is
rejected, *all* puts were attempted, yet the cache is not reloaded: the
run ends with one item persisted in the store and an empty cache, so the
cache does not reflect what was persisted. -/
theorem C2_counterexample :
    envPutFail1.catalog.length = 2
    ∧ (seedFromCatalogIfEmpty envPutFail1 ⟨[], []⟩).2.putsAttempted = 2
    ∧ (seedFromCatalogIfEmpty envPutFail1 ⟨[], []⟩).2.reloaded = false
    ∧ (seedFromCatalogIfEmpty envPutFail1 ⟨[], []⟩).1.store = [mkItem objA (JsVal.string "a")]
    ∧ (seedFromCatalogIfEmpty envPutFail1 ⟨[], []⟩).1.itemsCache = [] :=
  ⟨rfl, rfl, rfl, rfl, rfl⟩

/-- C2 (amended): the cache is reloaded from `store.getAll()` only when
the whole put loop succeeds; then the cache equals the store.  When the
loop is aborted by a rejected put (or a normalization error), the
`await loadItems()` at line 86 is skipped and the cache is left exactly
as it was before seeding, regardless of what was partially persisted. -/
theorem C2_amended (env : SeedEnv) (st : AppState)
    (h0 : st.itemsCache = []) (hf : env.fetchOk = true) :
    ((seedFromCatalogIfEmpty env st).2.reloaded
        = (seedLoop env 0 st.store env.catalog).2.2)
    ∧ ((seedFromCatalogIfEmpty env st).2.reloaded = true →
        (seedFromCatalogIfEmpty env st).1.itemsCache
          = (seedFromCatalogIfEmpty env st).1.store)
    ∧ ((seedFromCatalogIfEmpty env st).2.reloaded = false →
        (seedFromCatalogIfEmpty env st).1.itemsCache = st.itemsCache) := by
  unfold seedFromCatalogIfEmpty
  rw [h0, if_neg (by simp), if_pos hf]
  rcases hsl : seedLoop env 0 st.store env.catalog with ⟨store', n, ok⟩
  cases ok <;> simp

/-- C2 witness: a fully successful one-record seed reloads the cache,
which then equals the store. -/
theorem C2_witness :
    ((seedFromCatalogIfEmpty envAllOk ⟨[], []⟩).2.reloaded
        = (seedLoop envAllOk 0 [] envAllOk.catalog).2.2)
    ∧ ((seedFromCatalogIfEmpty envAllOk ⟨[], []⟩).2.reloaded = true →
        (seedFromCatalogIfEmpty envAllOk ⟨[], []⟩).1.itemsCache
          = (seedFromCatalogIfEmpty envAllOk ⟨[], []⟩).1.store)
    ∧ ((seedFromCatalogIfEmpty envAllOk ⟨[], []⟩).2.reloaded = false →
        (seedFromCatalogIfEmpty envAllOk ⟨[], []⟩).1.itemsCache = []) :=
  C2_amended envAllOk ⟨[], []⟩ rfl rfl

/-! ## C3 -/

/-- If every record before position `pre.length` normalizes and its put
succeeds, while the record at that position normalizes but its put is
rejected, the loop stops right there: exactly `pre.length + 1` puts are
attempted (whatever follows is abandoned) and the loop reports failure. -/
lemma seedLoop_abort (env : SeedEnv) :
    ∀ (pre : List JsVal) (k : Nat) (store : List Item) (r : JsVal) (post : List JsVal),
    (∀ j, j < pre.length →
      (∃ it, normalize (pre.getD j JsVal.null) (env.now (k + j)) = Except.ok it)
        ∧ env.putFails (k + j) = false) →
    (∃ it, normalize r (env.now (k + pre.length)) = Except.ok it) →
    env.putFails (k + pre.length) = true →
    (seedLoop env k store (pre ++ r :: post)).2 = (pre.length + 1, false) := by
  intro pre
  induction pre with
  | nil =>
    intro k store r post _ hnorm hfail
    simp only [List.length_nil, Nat.add_zero] at hnorm hfail
    obtain ⟨it, hit⟩ := hnorm
    simp [seedLoop, hit, hfail]
  | cons p pre ih =>
    intro k store r post hpre hnorm hfail
    have h0 := hpre 0 (by simp)
    rw [show (p :: pre).getD 0 JsVal.null = p from rfl, Nat.add_zero] at h0
    obtain ⟨⟨it0, hit0⟩, hput0⟩ := h0
    have ihres := ih (k + 1) (upsert store it0) r post
      (fun j hj => by
        have hp := hpre (j + 1) (by simpa using Nat.succ_lt_succ hj)
        rw [show (p :: pre).getD (j + 1) JsVal.null = pre.getD j JsVal.null from rfl] at hp
        rw [show k + (j + 1) = k + 1 + j by omega] at hp
        exact hp)
      (by
        rw [show k + 1 + pre.length = k + (p :: pre).length by simp; omega]
        exact hnorm)
      (by
        rw [show k + 1 + pre.length = k + (p :: pre).length by simp; omega]
        exact hfail)
    show (seedLoop env k store (p :: (pre ++ r :: post))).2 = (pre.length + 1 + 1, false)
    rcases hr : seedLoop env (k + 1) (upsert store it0) (pre ++ r :: post) with ⟨s', n', ok'⟩
    rw [hr] at ihres
    simp only [seedLoop, hit0, hput0, Bool.false_eq_true, if_false, hr]
    simp only [Prod.mk.injEq] at ihres ⊢
    exact ⟨by rw [ihres.1], ihres.2⟩

/-- C3 counterexample: puts are *not* independent.  With a two-record
catalog whose first put is rejected, only one put is ever attempted —
the second record is never stored (and no partial-failure count exists
anywhere in the run's observable outcome; the single `catch` merely
logs). -/
theorem C3_counterexample :
    envPutFail0.catalog.length = 2
    ∧ (seedFromCatalogIfEmpty envPutFail0 ⟨[], []⟩).2.putsAttempted = 1
    ∧ (seedFromCatalogIfEmpty envPutFail0 ⟨[], []⟩).1.store = [] :=
  ⟨rfl, rfl, rfl⟩

/-- C3 (amended): the first rejected put aborts the whole loop: exactly
the records before the failing one are put (the failing put being the
last one attempted), every remaining record is abandoned, the cache is
not reloaded, and no partial-failure condition or count is reported —
the thrown `StorageError` lands in the one `catch`, which only logs a
warning. -/
theorem C3_amended (env : SeedEnv) (st : AppState)
    (pre : List JsVal) (r : JsVal) (post : List JsVal)
    (h0 : st.itemsCache = []) (hf : env.fetchOk = true)
    (hcat : env.catalog = pre ++ r :: post)
    (hpre : ∀ j, j < pre.length →
      (∃ it, normalize (pre.getD j JsVal.null) (env.now j) = Except.ok it)
        ∧ env.putFails j = false)
    (hnorm : ∃ it, normalize r (env.now pre.length) = Except.ok it)
    (hfail : env.putFails pre.length = true) :
    (seedFromCatalogIfEmpty env st).2.putsAttempted = pre.length + 1
    ∧ (seedFromCatalogIfEmpty env st).2.reloaded = false
    ∧ (seedFromCatalogIfEmpty env st).1.itemsCache = st.itemsCache := by
  have habort := seedLoop_abort env pre 0 st.store r post
    (fun j hj => by simpa using hpre j hj)
    (by simpa using hnorm) (by simpa using hfail)
  unfold seedFromCatalogIfEmpty
  rw [h0, if_neg (by simp), if_pos hf, hcat]
  rcases hsl : seedLoop env 0 st.store (pre ++ r :: post) with ⟨store', n, ok⟩
  rw [hsl] at habort
  simp only [Prod.mk.injEq] at habort
  obtain ⟨hn, hok⟩ := habort
  subst hn
  subst hok
  simp [h0]

/-- C3 witness: first put rejected on a two-record catalog: exactly one
put attempted, no reload, untouched cache. -/
theorem C3_witness :
    (seedFromCatalogIfEmpty envPutFail0 ⟨[], []⟩).2.putsAttempted
        = List.length ([] : List JsVal) + 1
    ∧ (seedFromCatalogIfEmpty envPutFail0 ⟨[], []⟩).2.reloaded = false
    ∧ (seedFromCatalogIfEmpty envPutFail0 ⟨[], []⟩).1.itemsCache
        = (AppState.mk [] []).itemsCache :=
  C3_amended envPutFail0 ⟨[], []⟩ [] objA [objB] rfl rfl rfl
    (fun j hj => by simp at hj)
    ⟨mkItem objA (JsVal.string "a"), rfl⟩ rfl

/-! ## C6: hero selection -/

/-- `find?` only depends on the predicate's values on the list. -/
lemma find?_congr_mem {α : Type} (l : List α) (p q : α → Bool)
    (h : ∀ x ∈ l, p x = q x) : l.find? p = l.find? q := by
  induction l with
  | nil => rfl
  | cons a l ih =>
    have ha := h a (List.mem_cons_self a l)
    cases hqa : q a with
    | true =>
      rw [List.find?_cons_of_pos _ (by rw [ha, hqa]), List.find?_cons_of_pos _ hqa]
    | false =>
      rw [List.find?_cons_of_neg _ (by simp [ha, hqa]), List.find?_cons_of_neg _ (by simp [hqa])]
      exact ih (fun x hx => h x (List.mem_cons_of_mem a hx))

/-- C6: hero selection is computed from the full cache, unaffected by
the search input, and picks the first item with a non-null `themeColor`
(in cache order), else the first item, else the "no content" sentinel.
The hypothesis — no cached item carries the value `themeColor: ""` — is
an invariant of every cache this program can build, since normalization
turns a falsy raw `themeColor` into `null` (see `Streamly.C10_grouping`'s
companion fact for `category`; for `themeColor` the same `|| null`
defaulting at line 81 applies). -/
theorem C6_hero (cache : List VItem) (input : String)
    (hwf : ∀ i ∈ cache, i.themeColor ≠ some "") :
    ((onSearch cache input).hero = pickHero cache)
    ∧ pickHero cache
        = (cache.find? (fun i => i.themeColor.isSome)).getD (cache.headD noContentHero) := by
  constructor
  · by_cases hq : jsTrim (jsToLower input) = "" <;> simp [onSearch, renderAll, hq]
  · unfold pickHero
    have hfind : cache.find? (fun i => vTruthyS i.themeColor)
        = cache.find? (fun i => i.themeColor.isSome) := by
      apply find?_congr_mem
      intro x hx
      have hne := hwf x hx
      cases hxc : x.themeColor with
      | none => rfl
      | some s =>
        rw [hxc] at hne
        have hs : s ≠ "" := fun h => hne (by rw [h])
        simp [vTruthyS, hs]
    rw [hfind]
    by_cases hc : cache.length = 0
    · rw [if_pos hc, List.length_eq_zero.mp hc]
      rfl
    · rw [if_neg hc]
      cases hf : cache.find? (fun i => i.themeColor.isSome) with
      | some t => rfl
      | none =>
        cases cache with
        | nil => exact absurd rfl hc
        | cons a l => rfl

/-- An item without any theme color. -/
def itemPlain : VItem := ⟨"p", "Plain", none, none, "", some "Drama", none, []⟩

/-- An item with theme color `#123456`, listed second. -/
def itemThemed : VItem := ⟨"t", "Themed", none, none, "", some "Drama", some "#123456", []⟩

/-- C6 witness (the spec's scenario 4): with the themed item second in
cache order, it is the hero, for any search input. -/
theorem C6_witness :
    (((onSearch [itemPlain, itemThemed] "zz").hero = pickHero [itemPlain, itemThemed])
      ∧ pickHero [itemPlain, itemThemed]
          = ([itemPlain, itemThemed].find? (fun i => i.themeColor.isSome)).getD
              ([itemPlain, itemThemed].headD noContentHero))
    ∧ pickHero [itemPlain, itemThemed] = itemThemed :=
  ⟨C6_hero [itemPlain, itemThemed] "zz" (by decide), rfl⟩

/-! ## C10: the `'Featured'` grouping fallback -/

/-- Growing the accumulator preserves every existing group's key and
members. -/
lemma addToGroups_preserves (acc : List (String × List VItem)) (c : String) (x : VItem)
    (g : String × List VItem) (hg : g ∈ acc) :
    ∃ g' ∈ addToGroups acc c x, g'.1 = g.1 ∧ ∀ i ∈ g.2, i ∈ g'.2 := by
  unfold addToGroups
  split
  · refine ⟨(fun g => if g.1 == c then (g.1, g.2 ++ [x]) else g) g,
      List.mem_map_of_mem _ hg, ?_, ?_⟩
    · by_cases hgc : g.1 == c <;> simp [hgc]
    · by_cases hgc : g.1 == c <;> simp [hgc]
      exact fun i hi => Or.inl hi
  · exact ⟨g, List.mem_append_left _ hg, rfl, fun i hi => hi⟩

/-- After one step, the pushed item is a member of a group keyed by its
category key. -/
lemma addToGroups_adds (acc : List (String × List VItem)) (c : String) (x : VItem) :
    ∃ g ∈ addToGroups acc c x, g.1 = c ∧ x ∈ g.2 := by
  unfold addToGroups
  split
  · rename_i hany
    obtain ⟨g, hg, hgc⟩ := List.any_eq_true.mp hany
    refine ⟨(g.1, g.2 ++ [x]), ?_, eq_of_beq hgc, by simp⟩
    have himg : (fun g => if g.1 == c then (g.1, g.2 ++ [x]) else g) g
        = (g.1, g.2 ++ [x]) := by simp [hgc]
    exact himg ▸ List.mem_map_of_mem _ hg
  · exact ⟨(c, [x]), List.mem_append_right _ (by simp), rfl, by simp⟩

/-- Folding more items over the accumulator preserves every existing
group's key and members. -/
lemma groupItems_loop_preserves (l : List VItem) :
    ∀ (acc : List (String × List VItem)) (g : String × List VItem), g ∈ acc →
    ∃ g' ∈ List.foldl (fun acc item => addToGroups acc (catKey item) item) acc l,
      g'.1 = g.1 ∧ ∀ i ∈ g.2, i ∈ g'.2 := by
  induction l with
  | nil => exact fun acc g hg => ⟨g, hg, rfl, fun i hi => hi⟩
  | cons a l ih =>
    intro acc g hg
    rw [List.foldl_cons]
    obtain ⟨g1, hg1, e1, s1⟩ := addToGroups_preserves acc (catKey a) a g hg
    obtain ⟨g2, hg2, e2, s2⟩ := ih _ g1 hg1
    exact ⟨g2, hg2, by rw [e2, e1], fun i hi => s2 i (s1 i hi)⟩

/-- Every item of the list ends up a member of a group keyed by its
category key. -/
lemma groupItems_loop_mem (l : List VItem) :
    ∀ (acc : List (String × List VItem)) (i : VItem), i ∈ l →
    ∃ g ∈ List.foldl (fun acc item => addToGroups acc (catKey item) item) acc l,
      g.1 = catKey i ∧ i ∈ g.2 := by
  induction l with
  | nil => intro acc i hi; cases hi
  | cons a l ih =>
    intro acc i hi
    rw [List.foldl_cons]
    rcases List.mem_cons.mp hi with rfl | hi'
    · obtain ⟨g, hg, hgc, hgx⟩ := addToGroups_adds acc (catKey i) i
      obtain ⟨g', hg', h1, h2⟩ := groupItems_loop_preserves l _ g hg
      exact ⟨g', hg', by rw [h1, hgc], h2 i hgx⟩
    · exact ih _ i hi'

/-- A falsy category keys into `'Featured'`. -/
lemma catKey_falsy (i : VItem) (h : i.category = none ∨ i.category = some "") :
    catKey i = "Featured" := by
  rcases h with h | h <;> simp [catKey, jsOrS, h]

/-- `jsOr` of a truthy default is truthy. -/
lemma truthy_jsOr (a d : JsVal) (hd : truthy d = true) : truthy (jsOr a d) = true := by
  unfold jsOr
  split
  · assumption
  · exact hd

/-- Every successful normalization result is the object literal `mkItem`
for some id value. -/
lemma normalize_ok_mkItem (raw : JsVal) (t : Nat) (item : Item)
    (h : normalize raw t = Except.ok item) : ∃ idv, item = mkItem raw idv := by
  unfold normalize at h
  by_cases hnn : jsNullish raw = true
  · rw [if_pos hnn] at h
    exact Except.noConfusion h
  · rw [Bool.not_eq_true] at hnn
    rw [if_neg (by simp [hnn])] at h
    by_cases hid : truthy (jsProp raw "id") = true
    · rw [if_pos hid] at h
      injection h with h'
      exact ⟨jsProp raw "id", h'.symm⟩
    · rw [Bool.not_eq_true] at hid
      rw [if_neg (by simp [hid])] at h
      by_cases htt : truthy (jsProp raw "title") = true
      · rw [if_pos htt] at h
        rcases hpt : jsProp raw "title" with _ | _ | b | n | s | xs | qs <;> rw [hpt] at h <;>
          first
          | exact Except.noConfusion h
          | (injection h with h'; exact ⟨JsVal.string (slugify s ++ "-" ++ natDecimal t), h'.symm⟩)
      · rw [Bool.not_eq_true] at htt
        rw [if_neg (by simp [htt])] at h
        injection h with h'
        exact ⟨JsVal.string ("item-" ++ natDecimal t), h'.symm⟩

/-- C10: any cached item whose category is absent/null or the empty
string is grouped under the key `'Featured'` (not `'Uncategorized'`);
and for items produced by normalization this fallback is unreachable,
because their `category` field is always truthy (defaulted to
`'Uncategorized'`). -/
theorem C10_grouping :
    (∀ (cache : List VItem) (i : VItem), i ∈ cache →
      (i.category = none ∨ i.category = some "") →
      ∃ g ∈ groupItems cache, g.1 = "Featured" ∧ i ∈ g.2)
    ∧ (∀ (raw : JsVal) (t : Nat) (item : Item), normalize raw t = Except.ok item →
        truthy item.category = true) := by
  constructor
  · intro cache i hi hfal
    obtain ⟨g, hg, h1, h2⟩ := groupItems_loop_mem cache [] i hi
    exact ⟨g, hg, by rw [h1, catKey_falsy i hfal], h2⟩
  · intro raw t item h
    obtain ⟨idv, rfl⟩ := normalize_ok_mkItem raw t item h
    exact truthy_jsOr (jsProp raw "category") (JsVal.string "Uncategorized") rfl

/-- An item with absent category. -/
def iNoCat : VItem := ⟨"n", "NoCat", none, none, "", none, none, []⟩

/-- C10 witness: a category-less item lands in the `'Featured'` group,
and the empty record normalizes with a truthy category. -/
theorem C10_witness :
    (∃ g ∈ groupItems [iNoCat], g.1 = "Featured" ∧ iNoCat ∈ g.2)
    ∧ truthy (mkItem (JsVal.object [])
        (JsVal.string ("item-" ++ natDecimal 0))).category = true :=
  ⟨C10_grouping.1 [iNoCat] iNoCat (by simp) (Or.inl rfl),
   C10_grouping.2 (JsVal.object []) 0 _ rfl⟩

/-! ## Chunking lemmas shared by the pagination and search claims -/

/-- `chunkRows` in one-step form: first 8 (or all, if fewer), then the
chunks of the rest. -/
lemma chunkRows_eq_take_drop : ∀ (l : List (Option VItem)), l ≠ [] →
    chunkRows l = l.take 8 :: chunkRows (l.drop 8) := by
  intro l hl
  match l with
  | [] => exact absurd rfl hl
  | [a] => rfl
  | [a, b] => rfl
  | [a, b, c] => rfl
  | [a, b, c, d] => rfl
  | [a, b, c, d, e] => rfl
  | [a, b, c, d, e, f] => rfl
  | [a, b, c, d, e, f, g] => rfl
  | a :: b :: c :: d :: e :: f :: g :: h :: rest => rfl

/-- Every slot of every chunk comes from the chunked list. -/
lemma chunkRows_subset : ∀ (fuel : Nat) (l : List (Option VItem)), l.length ≤ fuel →
    ∀ row ∈ chunkRows l, ∀ x ∈ row, x ∈ l := by
  intro fuel
  induction fuel with
  | zero =>
    intro l hl row hrow
    have : l = [] := List.length_eq_zero.mp (Nat.le_zero.mp hl)
    subst this
    cases hrow
  | succ fuel ih =>
    intro l hl row hrow x hx
    by_cases hnil : l = []
    · subst hnil; cases hrow
    · rw [chunkRows_eq_take_drop l hnil] at hrow
      rcases List.mem_cons.mp hrow with rfl | hrow'
      · exact List.take_subset 8 l hx
      · exact List.drop_subset 8 l
          (ih (l.drop 8) (by rw [List.length_drop]; omega) row hrow' x hx)

/-- An item in a rendered row of a group's pagination is an item of the
group. -/
lemma renderRowsGroup_mem (group : List VItem) (row : List (Option VItem))
    (hrow : row ∈ renderRowsGroup group) (i : VItem) (hi : some i ∈ row) :
    i ∈ group := by
  unfold renderRowsGroup at hrow
  simp only [List.length_map] at hrow
  have hsub := fun padded h => chunkRows_subset (List.length padded) padded le_rfl row h
    (some i) hi
  by_cases hrem : group.length % CARDS_PER_ROW = 0
  · rw [if_pos hrem] at hrow
    have hmem := hsub _ hrow
    rcases List.mem_map.mp hmem with ⟨y, hy, hyi⟩
    cases Option.some.inj hyi
    exact hy
  · rw [if_neg hrem] at hrow
    have hmem := hsub _ hrow
    rcases List.mem_append.mp hmem with h | h
    · rcases List.mem_map.mp h with ⟨y, hy, hyi⟩
      cases Option.some.inj hyi
      exact hy
    · exact absurd (List.eq_of_mem_replicate h) (by simp)

/-! ## C5: search narrowing -/

/-- If every accumulated member and every remaining item satisfy `p`,
so does every member of every group after folding. -/
lemma groupItems_loop_all (p : VItem → Prop) (l : List VItem) :
    ∀ (acc : List (String × List VItem)),
    (∀ g ∈ acc, ∀ i ∈ g.2, p i) → (∀ i ∈ l, p i) →
    ∀ g ∈ List.foldl (fun acc item => addToGroups acc (catKey item) item) acc l,
      ∀ i ∈ g.2, p i := by
  induction l with
  | nil => intro acc hacc _ g hg; exact hacc g hg
  | cons a l ih =>
    intro acc hacc hl
    rw [List.foldl_cons]
    apply ih
    · intro g hg i hi
      unfold addToGroups at hg
      split at hg
      · rcases List.mem_map.mp hg with ⟨g0, hg0, rfl⟩
        by_cases hc : g0.1 == catKey a
        · rw [if_pos hc] at hi
          rcases List.mem_append.mp hi with h | h
          · exact hacc g0 hg0 i h
          · rw [List.mem_singleton.mp h]
            exact hl a (List.mem_cons_self a l)
        · rw [if_neg hc] at hi
          exact hacc g0 hg0 i hi
      · rcases List.mem_append.mp hg with h | h
        · exact hacc g h i hi
        · rw [List.mem_singleton.mp h] at hi
          rw [List.mem_singleton.mp hi]
          exact hl a (List.mem_cons_self a l)
    · exact fun i hi => hl i (List.mem_cons_of_mem a hi)

/-- Lower-casing fixes whitespace characters. -/
lemma jsCharLower_ws (c : Char) (h : jsIsWhitespace c = true) : jsCharLower c = c := by
  simp only [jsIsWhitespace, Bool.or_eq_true, beq_iff_eq] at h
  rcases h with ((h | h) | h) | h <;> subst h <;> decide

/-- A whitespace-only input lower-cases and trims to the empty string,
i.e. `!q` holds at line 244. -/
lemma jsTrim_all_ws (s : String) (h : s.data.all jsIsWhitespace = true) :
    jsTrim (jsToLower s) = "" := by
  unfold jsTrim jsToLower
  have hws : ∀ c ∈ s.data.map jsCharLower, jsIsWhitespace c = true := by
    intro c hc
    rcases List.mem_map.mp hc with ⟨c0, hc0, rfl⟩
    rw [jsCharLower_ws c0 (List.all_eq_true.mp h c0 hc0)]
    exact List.all_eq_true.mp h c0 hc0
  have h1 : (String.mk (s.data.map jsCharLower)).data.dropWhile jsIsWhitespace = [] :=
    List.dropWhile_eq_nil_iff.mpr hws
  rw [h1]
  rfl

/-- An item whose searchable text matches only across field boundaries:
title `"ab"`, description `"cd"`, category `"x"`. -/
def iCross : VItem := ⟨"c1", "ab", none, some "cd", "", some "x", none, []⟩

/-- C5 counterexample: for the predicate `"b c"`, `iCross` appears in the
filtered view (the match `"b c"` spans the title/description boundary of
`"ab cd x"`), yet `"b c"` is a substring of none of title, description,
category individually. -/
theorem C5_counterexample :
    (∃ g ∈ (onSearch [iCross] "b c").groups, ∃ row ∈ g.2, some iCross ∈ row)
    ∧ strIncludes (jsToLower iCross.title) (jsTrim (jsToLower "b c")) = false
    ∧ strIncludes (jsToLower (jsOrS iCross.description "")) (jsTrim (jsToLower "b c")) = false
    ∧ strIncludes (jsToLower (jsOrS iCross.category "")) (jsTrim (jsToLower "b c")) = false := by
  refine ⟨?_, rfl, rfl, rfl⟩
  exact ⟨("x", [[some iCross, none, none, none, none, none, none, none]]),
    by decide, [some iCross, none, none, none, none, none, none, none],
    by decide, by decide⟩

/-- C5 (amended): every item shown by a non-empty (after lower-casing
and trimming) predicate's search contains the processed predicate as a
substring of the lower-cased concatenation
`title + ' ' + description + ' ' + category`; and an input that is empty
or whitespace-only re-renders the full unfiltered view. -/
theorem C5_amended (cache : List VItem) (input : String) :
    ((jsTrim (jsToLower input) ≠ "") →
      ∀ g ∈ (onSearch cache input).groups, ∀ row ∈ g.2, ∀ i : VItem, some i ∈ row →
        strIncludes (jsToLower (searchText i)) (jsTrim (jsToLower input)) = true)
    ∧ (input.data.all jsIsWhitespace = true → onSearch cache input = renderAll cache) := by
  constructor
  · intro hq g hg row hrow i hi
    have hgroups : (onSearch cache input).groups
        = renderRows (groupItems (cache.filter
            (fun i => strIncludes (jsToLower (searchText i)) (jsTrim (jsToLower input))))) := by
      simp only [onSearch, if_neg hq]
    rw [hgroups] at hg
    rcases List.mem_map.mp hg with ⟨g0, hg0, rfl⟩
    have hig0 : i ∈ g0.2 := renderRowsGroup_mem g0.2 row hrow i hi
    exact groupItems_loop_all
      (fun j => strIncludes (jsToLower (searchText j)) (jsTrim (jsToLower input)) = true)
      _ [] (fun g hg => absurd hg (List.not_mem_nil g))
      (fun j hj => @List.of_mem_filter VItem
        (fun i => strIncludes (jsToLower (searchText i)) (jsTrim (jsToLower input))) j cache hj)
      g0 hg0 i hig0
  · intro hws
    simp only [onSearch, jsTrim_all_ws input hws, if_pos rfl]
    simp

/-- C5 witness: searching `"AB"` narrows to matching items only, and a
whitespace-only input renders the unfiltered view. -/
theorem C5_witness :
    (∀ g ∈ (onSearch [iCross] "AB").groups, ∀ row ∈ g.2, ∀ i : VItem, some i ∈ row →
        strIncludes (jsToLower (searchText i)) (jsTrim (jsToLower "AB")) = true)
    ∧ onSearch [iCross] " " = renderAll [iCross] :=
  ⟨(C5_amended [iCross] "AB").1 (by decide), (C5_amended [iCross] " ").2 (by decide)⟩

/-! ## C1: pagination invariant -/

/-- The number of chunks is the length divided by 8, rounded up. -/
lemma chunkRows_length : ∀ (fuel : Nat) (l : List (Option VItem)), l.length ≤ fuel →
    (chunkRows l).length = (l.length + 7) / 8 := by
  intro fuel
  induction fuel with
  | zero =>
    intro l hl
    have : l = [] := List.length_eq_zero.mp (Nat.le_zero.mp hl)
    subst this
    rfl
  | succ fuel ih =>
    intro l hl
    by_cases hnil : l = []
    · subst hnil; rfl
    · rw [chunkRows_eq_take_drop l hnil]
      have hpos : 0 < l.length := List.length_pos.mpr hnil
      rw [List.length_cons, ih (l.drop 8) (by rw [List.length_drop]; omega)]
      rw [List.length_drop]
      omega

/-- The `i`-th chunk is `slice(8*i, 8*i + 8)` of the chunked list (and
the default `[]` beyond the end, where the slice is empty as well). -/
lemma chunkRows_getD : ∀ (fuel : Nat) (l : List (Option VItem)), l.length ≤ fuel →
    ∀ i, (chunkRows l).getD i [] = (l.drop (8 * i)).take 8 := by
  intro fuel
  induction fuel with
  | zero =>
    intro l hl i
    have : l = [] := List.length_eq_zero.mp (Nat.le_zero.mp hl)
    subst this
    simp [show chunkRows [] = [] from rfl]
  | succ fuel ih =>
    intro l hl i
    by_cases hnil : l = []
    · subst hnil; simp [show chunkRows [] = [] from rfl]
    · rw [chunkRows_eq_take_drop l hnil]
      cases i with
      | zero => simp
      | succ i =>
        rw [List.getD_cons_succ, ih (l.drop 8) (by rw [List.length_drop]; omega) i,
          List.drop_drop, show 8 + 8 * i = 8 * (i + 1) by omega]

/-- The padded slot list of lines 142-147: the group's items as real
slots, then `(8 - n mod 8) mod 8` null placeholders. -/
def padRows (group : List VItem) : List (Option VItem) :=
  group.map some ++ List.replicate ((8 - group.length % 8) % 8) none

/-- C1: for a category group of `n` items, the rendered rows number
`⌈n/8⌉`; every row has exactly 8 slots; every row before the last holds
only real items; and the last row is exactly the trailing
`n mod 8` real items (8, i.e. a full row, when `n mod 8 = 0`) followed
by null placeholders up to 8. -/
theorem C1_pagination (group : List VItem) :
    ((renderRowsGroup group).length = (group.length + 7) / 8)
    ∧ (∀ row ∈ renderRowsGroup group, row.length = 8)
    ∧ (∀ i, i + 1 < (renderRowsGroup group).length →
        ∀ x ∈ (renderRowsGroup group).getD i [], x.isSome = true)
    ∧ (group ≠ [] → (renderRowsGroup group).getLast?
        = some ((group.drop (8 * ((group.length - 1) / 8))).map some
            ++ List.replicate ((8 - group.length % 8) % 8) none))
    ∧ (group ≠ [] → ((group.drop (8 * ((group.length - 1) / 8))).map some).length
        = if group.length % 8 = 0 then 8 else group.length % 8) := by
  have hred : renderRowsGroup group = chunkRows (padRows group) := by
    simp only [renderRowsGroup, CARDS_PER_ROW, List.length_map, padRows]
    by_cases hrem : group.length % 8 = 0
    · rw [if_pos hrem, show (8 - group.length % 8) % 8 = 0 by omega]
      simp
    · rw [if_neg hrem, show (8 - group.length % 8) % 8 = 8 - group.length % 8 by omega]
  have hplen : (padRows group).length = group.length + (8 - group.length % 8) % 8 := by
    simp only [padRows, List.length_append, List.length_map, List.length_replicate]
  have hcount : (renderRowsGroup group).length = (group.length + 7) / 8 := by
    rw [hred, chunkRows_length (padRows group).length (padRows group) le_rfl, hplen]
    omega
  refine ⟨hcount, ?_, ?_, ?_, ?_⟩
  · -- every row has exactly 8 slots
    intro row hrow
    rw [hred] at hrow
    rcases List.mem_iff_getElem.mp hrow with ⟨i, hi, hrowEq⟩
    have hgd := chunkRows_getD (padRows group).length (padRows group) le_rfl i
    rw [List.getD_eq_getElem _ [] hi, hrowEq] at hgd
    rw [hgd, List.length_take, List.length_drop, hplen]
    rw [chunkRows_length (padRows group).length (padRows group) le_rfl, hplen] at hi
    omega
  · -- rows before the last hold only real items
    intro i hi1 x hx
    rw [hred] at hi1 hx
    rw [chunkRows_length (padRows group).length (padRows group) le_rfl, hplen] at hi1
    rw [chunkRows_getD (padRows group).length (padRows group) le_rfl i] at hx
    have hbound : 8 * i + 8 ≤ group.length := by omega
    simp only [padRows] at hx
    rw [List.drop_append_eq_append_drop,
      show 8 * i - (group.map some).length = 0 by rw [List.length_map]; omega,
      List.drop_zero, List.take_append_eq_append_take,
      show 8 - ((group.map some).drop (8 * i)).length = 0 by
        rw [List.length_drop, List.length_map]; omega,
      List.take_zero, List.append_nil] at hx
    have hxA : x ∈ group.map some :=
      List.drop_subset _ _ (List.take_subset _ _ hx)
    rcases List.mem_map.mp hxA with ⟨y, hy, hyx⟩
    rw [← hyx]
    rfl
  · -- the last row: trailing real items then placeholders
    intro hne
    have hn1 : 1 ≤ group.length := List.length_pos.mpr hne
    rw [hred, List.getLast?_eq_getElem?]
    have hlen8 : (chunkRows (padRows group)).length = (group.length + 7) / 8 := by
      rw [chunkRows_length (padRows group).length (padRows group) le_rfl, hplen]
      omega
    rw [hlen8]
    rw [List.getElem?_eq_getElem (by rw [hlen8]; omega)]
    have hgd := chunkRows_getD (padRows group).length (padRows group) le_rfl
      ((group.length + 7) / 8 - 1)
    rw [List.getD_eq_getElem _ [] (by rw [hlen8]; omega)] at hgd
    rw [hgd]
    simp only [padRows]
    rw [show 8 * ((group.length + 7) / 8 - 1) = 8 * ((group.length - 1) / 8) by omega]
    rw [List.drop_append_eq_append_drop,
      show 8 * ((group.length - 1) / 8) - (group.map some).length = 0 by
        rw [List.length_map]; omega,
      List.drop_zero, ← List.map_drop,
      List.take_of_length_le (by
        rw [List.length_append, List.length_map, List.length_drop, List.length_replicate]
        omega)]
  · -- the count of real items in the last row
    intro hne
    have hn1 : 1 ≤ group.length := List.length_pos.mpr hne
    rw [List.length_map, List.length_drop]
    by_cases hrem : group.length % 8 = 0
    · rw [if_pos hrem]; omega
    · rw [if_neg hrem]; omega

/-- C1 witness (the spec's scenario 2): 9 items paginate into 2 rows of
8 slots: the first all real, the second 1 real item and 7 placeholders. -/
theorem C1_witness :
    ((renderRowsGroup (List.replicate 9 itemPlain)).length = 2)
    ∧ ((renderRowsGroup (List.replicate 9 itemPlain)).getD 1 []).length = 8
    ∧ (∀ x ∈ (renderRowsGroup (List.replicate 9 itemPlain)).getD 0 [], x.isSome = true)
    ∧ (renderRowsGroup (List.replicate 9 itemPlain)).getLast?
        = some (((List.replicate 9 itemPlain).drop 8).map some
            ++ List.replicate 7 none) := by
  refine ⟨?_, ?_, ?_, ?_⟩
  · have := (C1_pagination (List.replicate 9 itemPlain)).1
    simpa using this
  · exact (C1_pagination (List.replicate 9 itemPlain)).2.1 _ (by decide)
  · exact fun x hx => (C1_pagination (List.replicate 9 itemPlain)).2.2.1 0 (by decide) x hx
  · have := (C1_pagination (List.replicate 9 itemPlain)).2.2.2.1 (by decide)
    simpa using this

end Streamly
